/-
Verification of the `nls` directory-listing tool (src/bin/nls.rs).

This file gives a shallow embedding of the core of the program:
the attribute-record data model (`FileInfo`), the permission decoder
(`turn_permission_num_to_str`), the type classifier (`analysis_mode`),
the identity resolver (`get_group_name` / `get_owner_name`), the
human-readable size formatter (`human_readable_size`), the sorter
inside `get_files_and_dirs`, the name-only and detailed renderers
(`show_names` / `show_infos_lines`), and the recursive tree walker
(`show_as_tree_recursively`).

Conventions of the embedding:
* Machine integers of the Rust code (`u8`, `u32`, `u64`) are modelled
  as `Nat`; no arithmetic in the modelled fragment overflows.
* The `f64` arithmetic of `human_readable_size` is modelled over `ℚ`.
  For byte counts below 2^53 the `u64 → f64` conversion is exact and a
  division by `1024.0` only decrements the binary exponent, so every
  value, comparison and the final 2-decimal rounding computed by the
  Rust code coincide with the exact rational computation modelled here.
* Filesystem state is passed explicitly: metadata syscall results are
  a record (`OsMetadata`), directory enumeration results are a tree of
  nodes (`FSNode` / `FSForest`), and name-service lookups are `Option`
  valued inputs.
* Printing is modelled by returning the emitted text: the name-only
  renderer returns its row of cells, the detailed renderer a list of
  lines, and the tree walker a list of `(indent, content)` pairs, where
  `indent` is the number of leading spaces (`depth * 5` in the code).
* Terminal colouring is out of scope; the renderer's kind-to-colour
  choice is modelled by the `Color` tag that `color_file_names` picks.
* Rust's `slice::sort_by` is a stable sort; it is modelled by insertion
  sort (`List.insertionSort`), which is also stable, over the same
  comparator.  Stable sorts of the same total preorder agree, so the
  model is extensionally the code's sort.
-/
import Mathlib

set_option linter.unusedVariables false
set_option linter.unusedSectionVars false
set_option linter.unnecessarySeqFocus false

/-- The seven entry kinds of `enum FileType` in nls.rs. -/
inductive FileType where
  | File
  | Dir
  | Link
  | CharDevice
  | BlockDevice
  | Fifo
  | Socket
deriving DecidableEq

/-- The colour picked by `color_file_names` (white/cyan/blue/green of the
`colored` crate); the display category of an entry. -/
inductive Color where
  | white
  | cyan
  | blue
  | green
deriving DecidableEq

/-- `struct FileInfo` of nls.rs: one attribute record per path. -/
structure FileInfo where
  file_type : FileType
  permissions : String
  link : Nat
  owner : String
  group : String
  size : Nat
  modified_time : String
  name : String
  is_hidden : Bool
deriving DecidableEq

/-- `turn_permission_num_to_str` of nls.rs: one 3-bit permission field to
its `rwx`-style triad.  The Rust code builds the string by three
`push_str` calls, modelled by string append. -/
def turn_permission_num_to_str (num : Nat) : String :=
  (if num &&& 4 == 4 then "r" else "-")
    ++ (if num &&& 2 == 2 then "w" else "-")
    ++ (if num &&& 1 == 1 then "x" else "-")

/-- The OS file-type predicates consulted by `analysis_mode`
(`std::fs::FileType` and its unix `FileTypeExt`). -/
structure OsFileType where
  is_dir : Bool
  is_file : Bool
  is_symlink : Bool
  is_char_device : Bool
  is_block_device : Bool
  is_fifo : Bool
  is_socket : Bool
deriving DecidableEq

/-- `analysis_mode` of nls.rs: mode bits and the OS type predicates to
the full 10-character permission string and the classified kind.  The
Rust `match` with guards is an ordered chain of tests. -/
def analysis_mode (mode : Nat) (t : OsFileType) : String × FileType :=
  let perms_str :=
    turn_permission_num_to_str ((mode >>> 6) &&& 7)
      ++ turn_permission_num_to_str ((mode >>> 3) &&& 7)
      ++ turn_permission_num_to_str (mode &&& 7)
  if t.is_dir then ("d" ++ perms_str, FileType.Dir)
  else if t.is_file then ("-" ++ perms_str, FileType.File)
  else if t.is_symlink then ("l" ++ perms_str, FileType.Link)
  else if t.is_char_device then ("c" ++ perms_str, FileType.CharDevice)
  else if t.is_block_device then ("b" ++ perms_str, FileType.BlockDevice)
  else if t.is_fifo then ("p" ++ perms_str, FileType.Fifo)
  else if t.is_socket then ("s" ++ perms_str, FileType.Socket)
  else ("?" ++ perms_str, FileType.File)

/-- `color_file_names` of nls.rs: the display category of a record. -/
def color_file_names (file : FileInfo) : Color :=
  match file.file_type with
  | FileType.File => Color.white
  | FileType.Dir => Color.cyan
  | FileType.Link => Color.blue
  | FileType.CharDevice | FileType.BlockDevice | FileType.Fifo | FileType.Socket =>
      Color.green

/-- The branch condition of `get_owner_and_group_name` in nls.rs, exactly
as written there:
`file_type != &FileType::File || file_type != &FileType::Dir || file_type != &FileType::Link`. -/
def group_lookup_uses_libc (file_type : FileType) : Bool :=
  (file_type != FileType.File) || (file_type != FileType.Dir)
    || (file_type != FileType.Link)

/-- The group half of `get_owner_and_group_name` of nls.rs.
`libcLookup` models `libc::getgrgid` (`none` = null pointer) and
`usersLookup` models `users::get_group_by_gid` (`none` = lookup failed). -/
def get_group_name (file_type : FileType) (libcLookup usersLookup : Option String) :
    String :=
  if group_lookup_uses_libc file_type then
    match libcLookup with
    | some g => g
    | none => ""
  else
    match usersLookup with
    | some g => g
    | none => "Unknown"

/-- The owner half of `get_owner_and_group_name` of nls.rs:
`users::get_user_by_uid` with `"Unknown"` fallback. -/
def get_owner_name (usersLookup : Option String) : String :=
  match usersLookup with
  | some u => u
  | none => "Unknown"

/-- The metadata consulted by `get_file_info` for one path (result of the
`symlink_metadata` / `metadata` syscall), with the modification time
already formatted (`chrono` formatting is out of scope). -/
structure OsMetadata where
  mode : Nat
  ftype : OsFileType
  nlink : Nat
  size : Nat
  modified : String
deriving DecidableEq

/-- Rust `str::starts_with(".")`: true iff the first character is `'.'`. -/
def startsWithDot (s : String) : Bool :=
  match s.data with
  | [] => false
  | c :: _ => c == '.'

/-- `get_file_info` of nls.rs: assembles one `FileInfo` from the metadata,
the final path component, and the three name-service lookup results. -/
def get_file_info (meta : OsMetadata) (file_name : String)
    (libcGroup usersGroup usersOwner : Option String) : FileInfo :=
  let pt := analysis_mode meta.mode meta.ftype
  { file_type := pt.2
    permissions := pt.1
    link := meta.nlink
    owner := get_owner_name usersOwner
    group := get_group_name pt.2 libcGroup usersGroup
    size := meta.size
    modified_time := meta.modified
    name := file_name
    is_hidden := startsWithDot file_name }

/-- Round to the nearest integer, ties to even: the rounding applied by
Rust's `{:.2}` float formatting (on the exact binary value, which for
the modelled inputs is the exact rational value). -/
def roundHalfEven (q : ℚ) : ℤ :=
  let f := ⌊q⌋
  if q - f < 1/2 then f
  else if 1/2 < q - f then f + 1
  else if f % 2 = 0 then f else f + 1

/-- `format!("{:.2}", v)` for a non-negative value: integer part, a dot,
and exactly two fraction digits. -/
def format2 (q : ℚ) : String :=
  let h := (roundHalfEven (q * 100)).toNat
  toString (h / 100) ++ "." ++ (if h % 100 < 10 then "0" else "")
    ++ toString (h % 100)

/-- One `if size > 1024.0 { size /= 1024.0; unit = next }` block of
`human_readable_size` in nls.rs. -/
def hrStep (su : ℚ × String) (next : String) : ℚ × String :=
  if 1024 < su.1 then (su.1 / 1024, next) else su

/-- The value/unit pair computed by the five cascaded `if` blocks of
`human_readable_size` in nls.rs. -/
def human_readable_pair (size : Nat) : ℚ × String :=
  hrStep (hrStep (hrStep (hrStep (hrStep ((size : ℚ), "B") "K") "M") "G") "T") "P"

/-- `human_readable_size` of nls.rs: `format!("{:.2}{}", size, unit)`. -/
def human_readable_size (size : Nat) : String :=
  format2 (human_readable_pair size).1 ++ (human_readable_pair size).2

/-- The comparator passed to `sort_by` in `get_files_and_dirs` of nls.rs:
size if `-s`, else modification time if `-t`, else name. -/
def fileLe (sort_by_size sort_by_time : Bool) (f1 f2 : FileInfo) : Prop :=
  if sort_by_size then f1.size ≤ f2.size
  else if sort_by_time then f1.modified_time ≤ f2.modified_time
  else f1.name ≤ f2.name

instance fileLe.instDecidableRel (bs bt : Bool) : DecidableRel (fileLe bs bt) := by
  intro f1 f2
  unfold fileLe
  split
  · exact inferInstance
  · split
    · exact inferInstance
    · exact inferInstance

instance fileLe.instIsTotal (bs bt : Bool) : IsTotal FileInfo (fileLe bs bt) := by
  constructor
  intro a b
  unfold fileLe
  split
  · exact le_total a.size b.size
  · split
    · exact le_total a.modified_time b.modified_time
    · exact le_total a.name b.name

instance fileLe.instIsTrans (bs bt : Bool) : IsTrans FileInfo (fileLe bs bt) := by
  constructor
  intro a b c
  unfold fileLe
  split
  · exact le_trans
  · split
    · exact le_trans
    · exact le_trans

/-- The sort-and-optionally-reverse tail of `get_files_and_dirs` in
nls.rs: a stable sort by the selected key (`sort_by` is stable; insertion
sort realises it), then `Vec::reverse` if `-r` was given. -/
def sortFiles (sort_by_size sort_by_time resort : Bool) (files : List FileInfo) :
    List FileInfo :=
  let sorted := List.insertionSort (fileLe sort_by_size sort_by_time) files
  if resort then sorted.reverse else sorted

/-- Two elements tie under a preorder when each compares `≤` the other. -/
def eqvUnder (r : α → α → Prop) (x y : α) : Prop := r x y ∧ r y x

instance eqvUnder.instDecidable (r : α → α → Prop) [DecidableRel r] (x y : α) :
    Decidable (eqvUnder r x y) :=
  inferInstanceAs (Decidable (r x y ∧ r y x))

/-- Rust `format!("{:<20}", s)`: left-justify in a minimum width of 20. -/
def padRight20 (s : String) : String :=
  s ++ String.mk (List.replicate (20 - s.length) ' ')

/-- Rust `format!("{:>w}", s)`: right-justify in a minimum width `w`. -/
def padLeft (w : Nat) (s : String) : String :=
  String.mk (List.replicate (w - s.length) ' ') ++ s

/-- The cells printed by `show_names` of nls.rs: one `print!("{:<20}", name)`
per record that survives the hidden-entry filter (`!all && is_hidden`
skips).  Colouring is out of scope; the cell is the padded name. -/
def show_names_cells (all : Bool) (files : List FileInfo) : List String :=
  files.filterMap fun file =>
    if !all && file.is_hidden then none
    else some (padRight20 file.name)

/-- The full standard-output text of `show_names` of nls.rs: the cells in
order, then the final `println!()` newline. -/
def show_names (all : Bool) (files : List FileInfo) : String :=
  String.join (show_names_cells all files) ++ "\n"

/-- One line of `show_infos` of nls.rs:
`"{} {:>3} {:>8} {:>8} {:>8} {:>20} {}"` applied to the record's columns. -/
def info_line (human_readable : Bool) (file : FileInfo) : String :=
  let size :=
    if human_readable then human_readable_size file.size else toString file.size
  file.permissions ++ " " ++ padLeft 3 (toString file.link) ++ " "
    ++ padLeft 8 file.owner ++ " " ++ padLeft 8 file.group ++ " "
    ++ padLeft 8 size ++ " " ++ padLeft 20 file.modified_time ++ " " ++ file.name

/-- The lines printed by `show_infos` of nls.rs: one `println!` per record
that survives the hidden-entry filter. -/
def show_infos_lines (all human_readable : Bool) (files : List FileInfo) :
    List String :=
  files.filterMap fun file =>
    if !all && file.is_hidden then none
    else some (info_line human_readable file)

/-- Number of newline characters in a string. -/
def newlineCount (s : String) : Nat :=
  s.data.count '\n'

/-- The content of one line printed by `show_as_tree_recursively`: the
`"No such file or directory"` placeholder, the `"Permission denied"`
placeholder, or a coloured entry name. -/
inductive LineContent where
  | noSuchFile
  | permissionDenied
  | entry (c : Color) (name : String)
deriving DecidableEq

mutual
/-- One node of the filesystem as the tree walk observes it: either the
path does not exist (`path.exists()` is false: deleted, or a dangling
symlink target), or it exists and `get_file_info` yields `info`, with
`rd` the result `fs::read_dir` would give (consulted only when the kind
is `Dir`). -/
inductive FSNode where
  | missing : FSNode
  | node : FileInfo → ReadDirResult → FSNode

/-- Result of `fs::read_dir`: failure (permission denied) or the children
in enumeration order. -/
inductive ReadDirResult where
  | denied : ReadDirResult
  | ok : FSForest → ReadDirResult

/-- A list of sibling nodes (a separate inductive so that the walker can
recurse structurally). -/
inductive FSForest where
  | nil : FSForest
  | cons : FSNode → FSForest → FSForest
end

/-- The sibling nodes as a `List`. -/
def FSForest.toList : FSForest → List FSNode
  | FSForest.nil => []
  | FSForest.cons c cs => c :: cs.toList

mutual
/-- `show_as_tree_recursively` of nls.rs, returning the emitted lines as
`(indent, content)` pairs, `indent = depth * 5`.  The order of the checks
is the code's: the missing-path placeholder is printed before the depth
bound is consulted.  The `match fs::read_dir(path)` block is factored
into `childLines`. -/
def show_as_tree_recursively (maxDepth : Nat) : FSNode → Nat → List (Nat × LineContent)
  | FSNode.missing, depth => [(depth * 5, LineContent.noSuchFile)]
  | FSNode.node info rd, depth =>
    if maxDepth < depth then []
    else
      (depth * 5, LineContent.entry (color_file_names info) info.name) ::
        (if info.file_type = FileType.Dir then childLines maxDepth rd depth
        else [])

/-- The `match fs::read_dir(path)` block of `show_as_tree_recursively`,
at the directory's own depth: on failure the `"Permission denied"`
placeholder is printed at `depth * 5`, the directory's own indent, and
descent stops; on success each child is walked at `depth + 1`. -/
def childLines (maxDepth : Nat) : ReadDirResult → Nat → List (Nat × LineContent)
  | ReadDirResult.denied, depth => [(depth * 5, LineContent.permissionDenied)]
  | ReadDirResult.ok cs, depth => showForest maxDepth cs (depth + 1)

/-- The `for path in paths` loop of `show_as_tree_recursively`: walk each
child in enumeration order at the same depth. -/
def showForest (maxDepth : Nat) : FSForest → Nat → List (Nat × LineContent)
  | FSForest.nil, _ => []
  | FSForest.cons c cs, depth =>
      show_as_tree_recursively maxDepth c depth ++ showForest maxDepth cs depth
end

/-- The fatal error of the flat-listing path (`panic!` on `read_dir`
failure in `get_files_and_dirs`). -/
inductive ListError where
  | permissionDenied
deriving DecidableEq

/-- `get_files_and_dirs` of nls.rs.  `is_dir` is `path.is_dir()`;
`readDir` is the `fs::read_dir` outcome (`none` = error, in the code a
`panic!`, modelled as `Except.error`); `selfInfo` is `get_file_info` of
the path itself (used when the path is not a directory — note the code
returns early then, skipping sort and reverse); `entries` are the
records of the enumerated children, in enumeration order. -/
def get_files_and_dirs (is_dir : Bool) (selfInfo : FileInfo)
    (readDir : Option (List FileInfo)) (sort_by_size sort_by_time resort : Bool) :
    Except ListError (List FileInfo) :=
  if !is_dir then Except.ok [selfInfo]
  else
    match readDir with
    | none => Except.error ListError.permissionDenied
    | some entries => Except.ok (sortFiles sort_by_size sort_by_time resort entries)

/-- A sample attribute record, as `get_file_info` would build it for a
path with the given kind and final name component. -/
def sampleRec (t : FileType) (nm : String) : FileInfo :=
  { file_type := t
    permissions := "-rw-r--r--"
    link := 1
    owner := "user"
    group := "group"
    size := 100
    modified_time := "2024-01-01 00:00:00"
    name := nm
    is_hidden := startsWithDot nm }

/-- The four kinds that `color_file_names` maps to the one shared
display category. -/
def specialKind (t : FileType) : Prop :=
  t = FileType.CharDevice ∨ t = FileType.BlockDevice ∨ t = FileType.Fifo
    ∨ t = FileType.Socket

/-- An OS descriptor for which only `is_char_device` holds. -/
def charDevDesc : OsFileType :=
  ⟨false, false, false, true, false, false, false⟩

/-- An OS descriptor for which only `is_fifo` holds. -/
def fifoDesc : OsFileType :=
  ⟨false, false, false, false, false, true, false⟩

/-- The sample tree for the depth-bound counterexample: a root directory
containing one subdirectory whose single child path does not exist (a
dangling symlink at the time of the walk). -/
def c6Child : FSNode :=
  FSNode.node (sampleRec FileType.Dir "sub")
    (ReadDirResult.ok (FSForest.cons FSNode.missing FSForest.nil))

/-- Root of the depth-bound counterexample tree. -/
def c6Root : FSNode :=
  FSNode.node (sampleRec FileType.Dir "top")
    (ReadDirResult.ok (FSForest.cons c6Child FSForest.nil))

section Stability

variable {α : Type} (r : α → α → Prop) [DecidableRel r] [IsTrans α r]

lemma filter_orderedInsert_eqv (x z : α) (l : List α) (hz : eqvUnder r x z) :
    (l.orderedInsert r z).filter (fun y => decide (eqvUnder r x y)) =
      z :: l.filter (fun y => decide (eqvUnder r x y)) := by
  rw [List.orderedInsert_eq_take_drop, List.filter_append]
  have htake :
      (l.takeWhile fun b => decide ¬r z b).filter
        (fun y => decide (eqvUnder r x y)) = [] := by
    rw [List.filter_eq_nil_iff]
    intro a ha hp
    have hq : ¬r z a :=
      of_decide_eq_true (List.mem_takeWhile_imp (p := fun b => decide ¬r z b) ha)
    have hxa : eqvUnder r x a := of_decide_eq_true hp
    exact hq (Trans.trans hz.2 hxa.1)
  rw [htake, List.nil_append,
    List.filter_cons_of_pos (p := fun y => decide (eqvUnder r x y))
      (by simpa using hz)]
  congr 1
  conv_rhs =>
    rw [← List.takeWhile_append_dropWhile (p := fun b => decide ¬r z b) (l := l)]
  rw [List.filter_append, htake, List.nil_append]

lemma filter_orderedInsert_not (x z : α) (l : List α) (hz : ¬eqvUnder r x z) :
    (l.orderedInsert r z).filter (fun y => decide (eqvUnder r x y)) =
      l.filter (fun y => decide (eqvUnder r x y)) := by
  rw [List.orderedInsert_eq_take_drop, List.filter_append,
    List.filter_cons_of_neg (p := fun y => decide (eqvUnder r x y))
      (by simpa using hz),
    ← List.filter_append, List.takeWhile_append_dropWhile]

/-- Stability of insertion sort: the subsequence of elements tying with
any fixed element `x` is unchanged by sorting. -/
lemma filter_insertionSort_eqv (x : α) (l : List α) :
    (List.insertionSort r l).filter (fun y => decide (eqvUnder r x y)) =
      l.filter (fun y => decide (eqvUnder r x y)) := by
  induction l with
  | nil => rfl
  | cons a l ih =>
    rw [List.insertionSort]
    by_cases ha : eqvUnder r x a
    · rw [filter_orderedInsert_eqv r x a _ ha, ih,
        List.filter_cons_of_pos (p := fun y => decide (eqvUnder r x y))
          (by simpa using ha)]
    · rw [filter_orderedInsert_not r x a _ ha, ih,
        List.filter_cons_of_neg (p := fun y => decide (eqvUnder r x y))
          (by simpa using ha)]

end Stability

lemma hrStep_lt {v : ℚ} (u next : String) (h : 1024 < v) :
    hrStep (v, u) next = (v / 1024, next) := by
  simp [hrStep, h]

lemma hrStep_le {v : ℚ} (u next : String) (h : ¬1024 < v) :
    hrStep (v, u) next = (v, u) := by
  simp [hrStep, h]

lemma hr_cond_one (size : Nat) : (1024 : ℚ) < (size : ℚ) ↔ 1024 < size := by
  exact_mod_cast Iff.rfl

lemma hr_cond_two (size : Nat) :
    (1024 : ℚ) < (size : ℚ) / 1024 ↔ 1024 ^ 2 < size := by
  rw [lt_div_iff₀ (by norm_num : (0 : ℚ) < 1024)]
  rw [show ((1024 : ℚ) * 1024) = (((1024 ^ 2 : ℕ) : ℚ)) by push_cast; ring]
  exact_mod_cast Iff.rfl

lemma hr_cond_three (size : Nat) :
    (1024 : ℚ) < (size : ℚ) / 1024 / 1024 ↔ 1024 ^ 3 < size := by
  rw [div_div, lt_div_iff₀ (by norm_num : (0 : ℚ) < 1024 * 1024)]
  rw [show ((1024 : ℚ) * (1024 * 1024)) = (((1024 ^ 3 : ℕ) : ℚ)) by push_cast; ring]
  exact_mod_cast Iff.rfl

lemma hr_cond_four (size : Nat) :
    (1024 : ℚ) < (size : ℚ) / 1024 / 1024 / 1024 ↔ 1024 ^ 4 < size := by
  rw [div_div, div_div, lt_div_iff₀ (by norm_num : (0 : ℚ) < 1024 * (1024 * 1024))]
  rw [show ((1024 : ℚ) * (1024 * (1024 * 1024))) = (((1024 ^ 4 : ℕ) : ℚ)) by
    push_cast; ring]
  exact_mod_cast Iff.rfl

lemma hr_cond_five (size : Nat) :
    (1024 : ℚ) < (size : ℚ) / 1024 / 1024 / 1024 / 1024 ↔ 1024 ^ 5 < size := by
  rw [div_div, div_div, div_div,
    lt_div_iff₀ (by norm_num : (0 : ℚ) < 1024 * (1024 * (1024 * 1024)))]
  rw [show ((1024 : ℚ) * (1024 * (1024 * (1024 * 1024))))
      = (((1024 ^ 5 : ℕ) : ℚ)) by push_cast; ring]
  exact_mod_cast Iff.rfl

/-- Boundary characterisation of the five cascaded `if value > 1024`
blocks: units advance only on strict excess over 1024, a value of exactly
1024 keeps the lower unit, and no unit beyond `P` exists. -/
theorem human_readable_pair_eq (size : Nat) :
    human_readable_pair size =
      if size ≤ 1024 then ((size : ℚ), "B")
      else if size ≤ 1024 ^ 2 then ((size : ℚ) / 1024, "K")
      else if size ≤ 1024 ^ 3 then ((size : ℚ) / 1024 / 1024, "M")
      else if size ≤ 1024 ^ 4 then ((size : ℚ) / 1024 / 1024 / 1024, "G")
      else if size ≤ 1024 ^ 5 then ((size : ℚ) / 1024 / 1024 / 1024 / 1024, "T")
      else ((size : ℚ) / 1024 / 1024 / 1024 / 1024 / 1024, "P") := by
  unfold human_readable_pair
  by_cases h1 : size ≤ 1024
  · have c1 : ¬(1024 : ℚ) < (size : ℚ) := by rw [hr_cond_one]; omega
    rw [hrStep_le _ _ c1, hrStep_le _ _ c1, hrStep_le _ _ c1, hrStep_le _ _ c1,
      hrStep_le _ _ c1, if_pos h1]
  · have c1 : (1024 : ℚ) < (size : ℚ) := by rw [hr_cond_one]; omega
    rw [hrStep_lt _ _ c1]
    by_cases h2 : size ≤ 1024 ^ 2
    · have c2 : ¬(1024 : ℚ) < (size : ℚ) / 1024 := by rw [hr_cond_two]; omega
      rw [hrStep_le _ _ c2, hrStep_le _ _ c2, hrStep_le _ _ c2, hrStep_le _ _ c2,
        if_neg h1, if_pos h2]
    · have c2 : (1024 : ℚ) < (size : ℚ) / 1024 := by rw [hr_cond_two]; omega
      rw [hrStep_lt _ _ c2]
      by_cases h3 : size ≤ 1024 ^ 3
      · have c3 : ¬(1024 : ℚ) < (size : ℚ) / 1024 / 1024 := by
          rw [hr_cond_three]; omega
        rw [hrStep_le _ _ c3, hrStep_le _ _ c3, hrStep_le _ _ c3,
          if_neg h1, if_neg h2, if_pos h3]
      · have c3 : (1024 : ℚ) < (size : ℚ) / 1024 / 1024 := by
          rw [hr_cond_three]; omega
        rw [hrStep_lt _ _ c3]
        by_cases h4 : size ≤ 1024 ^ 4
        · have c4 : ¬(1024 : ℚ) < (size : ℚ) / 1024 / 1024 / 1024 := by
            rw [hr_cond_four]; omega
          rw [hrStep_le _ _ c4, hrStep_le _ _ c4,
            if_neg h1, if_neg h2, if_neg h3, if_pos h4]
        · have c4 : (1024 : ℚ) < (size : ℚ) / 1024 / 1024 / 1024 := by
            rw [hr_cond_four]; omega
          rw [hrStep_lt _ _ c4]
          by_cases h5 : size ≤ 1024 ^ 5
          · have c5 : ¬(1024 : ℚ) < (size : ℚ) / 1024 / 1024 / 1024 / 1024 := by
              rw [hr_cond_five]; omega
            rw [hrStep_le _ _ c5,
              if_neg h1, if_neg h2, if_neg h3, if_neg h4, if_pos h5]
          · have c5 : (1024 : ℚ) < (size : ℚ) / 1024 / 1024 / 1024 / 1024 := by
              rw [hr_cond_five]; omega
            rw [hrStep_lt _ _ c5,
              if_neg h1, if_neg h2, if_neg h3, if_neg h4, if_neg h5]

/-- Every line the walker emits is either the missing-path placeholder
or sits at an indent of at most `maxDepth * 5`. -/
theorem walk_indent_bound (md : Nat) :
    ∀ (n : FSNode) (d : Nat) (p : Nat × LineContent),
      p ∈ show_as_tree_recursively md n d →
        p.2 = LineContent.noSuchFile ∨ p.1 ≤ md * 5 := by
  refine FSNode.rec
    (motive_1 := fun n => ∀ (d : Nat) (p : Nat × LineContent),
      p ∈ show_as_tree_recursively md n d →
        p.2 = LineContent.noSuchFile ∨ p.1 ≤ md * 5)
    (motive_2 := fun rd => ∀ (d : Nat) (p : Nat × LineContent), d ≤ md →
      p ∈ childLines md rd d → p.2 = LineContent.noSuchFile ∨ p.1 ≤ md * 5)
    (motive_3 := fun f => ∀ (d : Nat) (p : Nat × LineContent),
      p ∈ showForest md f d → p.2 = LineContent.noSuchFile ∨ p.1 ≤ md * 5)
    ?_ ?_ ?_ ?_ ?_ ?_
  · intro d p hp
    simp only [show_as_tree_recursively, List.mem_singleton] at hp
    subst hp
    exact Or.inl rfl
  · intro info rd ih d p hp
    simp only [show_as_tree_recursively] at hp
    by_cases hd : md < d
    · rw [if_pos hd] at hp
      cases hp
    · rw [if_neg hd] at hp
      rcases List.mem_cons.mp hp with h | h
      · subst h
        exact Or.inr (Nat.mul_le_mul_right 5 (Nat.le_of_not_lt hd))
      · by_cases hdir : info.file_type = FileType.Dir
        · rw [if_pos hdir] at h
          exact ih d p (Nat.le_of_not_lt hd) h
        · rw [if_neg hdir] at h
          cases h
  · intro d p hd hp
    simp only [childLines, List.mem_singleton] at hp
    subst hp
    exact Or.inr (Nat.mul_le_mul_right 5 hd)
  · intro cs ih d p hd hp
    simp only [childLines] at hp
    exact ih (d + 1) p hp
  · intro d p hp
    simp only [showForest] at hp
    cases hp
  · intro c cs ihc ihcs d p hp
    simp only [showForest] at hp
    rcases List.mem_append.mp hp with h | h
    · exact ihc d p h
    · exact ihcs d p h

/-- A line emitted for one member of a forest is emitted for the forest. -/
theorem mem_showForest (md d : Nat) :
    ∀ (cs : FSForest) (c : FSNode), c ∈ cs.toList →
      ∀ q ∈ show_as_tree_recursively md c d, q ∈ showForest md cs d
  | FSForest.nil, c, hc => by
    simp [FSForest.toList] at hc
  | FSForest.cons a as, c, hc => by
    intro q hq
    simp only [FSForest.toList, List.mem_cons] at hc
    simp only [showForest, List.mem_append]
    rcases hc with h | h
    · subst h
      exact Or.inl hq
    · exact Or.inr (mem_showForest md d as c h q hq)

lemma count_flatten_zero (c : Char) :
    ∀ ls : List (List Char), (∀ l ∈ ls, l.count c = 0) → ls.flatten.count c = 0 := by
  intro ls h
  induction ls with
  | nil => rfl
  | cons a as ih =>
    rw [List.flatten_cons, List.count_append, h a (List.mem_cons_self a as),
      ih fun l hl => h l (List.mem_cons_of_mem a hl)]

lemma padRight20_data (s : String) :
    (padRight20 s).data = s.data ++ List.replicate (20 - s.length) ' ' := by
  simp [padRight20]

lemma padRight20_count_newline (s : String) (h : s.data.count '\n' = 0) :
    (padRight20 s).data.count '\n' = 0 := by
  rw [padRight20_data, List.count_append, h, List.count_replicate]
  simp

lemma show_names_cells_count_newline (all : Bool) (files : List FileInfo)
    (h : ∀ f ∈ files, f.name.data.count '\n' = 0) :
    ∀ cell ∈ show_names_cells all files, cell.data.count '\n' = 0 := by
  intro cell hcell
  unfold show_names_cells at hcell
  rcases List.mem_filterMap.mp hcell with ⟨f, hf, hsome⟩
  by_cases hskip : (!all && f.is_hidden) = true
  · rw [if_pos hskip] at hsome
    cases hsome
  · rw [if_neg hskip] at hsome
    cases hsome
    exact padRight20_count_newline _ (h f hf)

lemma newlineCount_show_names (all : Bool) (files : List FileInfo)
    (h : ∀ f ∈ files, f.name.data.count '\n' = 0) :
    newlineCount (show_names all files) = 1 := by
  unfold newlineCount show_names
  rw [String.data_append, List.count_append, String.join_eq]
  have hz : ((show_names_cells all files).map String.data).flatten.count '\n' = 0 := by
    apply count_flatten_zero
    intro l hl
    rcases List.mem_map.mp hl with ⟨cell, hcell, rfl⟩
    exact show_names_cells_count_newline all files h cell hcell
  exact hz ▸ rfl

lemma hrs_1024 : human_readable_size 1024 = "1024.00B" := by
  have hp : human_readable_pair 1024 = ((1024 : ℚ), "B") := by
    unfold human_readable_pair hrStep
    norm_num
  have h1 : ⌊(1024 : ℚ) * 100⌋ = 102400 := by
    rw [Int.floor_eq_iff] <;> norm_num
  unfold human_readable_size
  rw [hp]
  unfold format2 roundHalfEven
  rw [h1]
  norm_num
  decide

lemma hrs_1025 : human_readable_size 1025 = "1.00K" := by
  have hp : human_readable_pair 1025 = ((1025 : ℚ) / 1024, "K") := by
    unfold human_readable_pair hrStep
    norm_num
  have h1 : ⌊(1025 : ℚ) / 1024 * 100⌋ = 100 := by
    rw [Int.floor_eq_iff] <;> norm_num
  unfold human_readable_size
  rw [hp]
  unfold format2 roundHalfEven
  rw [h1]
  norm_num
  decide

lemma hrs_1048576 : human_readable_size 1048576 = "1024.00K" := by
  have hp : human_readable_pair 1048576 = ((1024 : ℚ), "K") := by
    unfold human_readable_pair hrStep
    norm_num
  have h1 : ⌊(1024 : ℚ) * 100⌋ = 102400 := by
    rw [Int.floor_eq_iff] <;> norm_num
  unfold human_readable_size
  rw [hp]
  unfold format2 roundHalfEven
  rw [h1]
  norm_num
  decide

lemma hrs_0 : human_readable_size 0 = "0.00B" := by
  have hp : human_readable_pair 0 = ((0 : ℚ), "B") := by
    unfold human_readable_pair hrStep
    norm_num
  have h1 : ⌊(0 : ℚ) * 100⌋ = 0 := by
    rw [Int.floor_eq_iff] <;> norm_num
  unfold human_readable_size
  rw [hp]
  unfold format2 roundHalfEven
  rw [h1]
  norm_num
  decide

/-- C2: the group-name branch condition
`file_type != File || file_type != Dir || file_type != Link` is a
tautology, so the libc `getgrgid` lookup (empty-string fallback) is used
for every kind — including `File`, `Dir` and `Link`, for which the claim
(and the code's own comment) prescribes the users-crate lookup with
`"Unknown"` fallback.  In particular a regular file whose libc group
lookup fails gets the empty string even when the users-crate lookup
would succeed. -/
theorem C2_group_lookup_always_libc :
    (∀ ft : FileType, group_lookup_uses_libc ft = true)
    ∧ (∀ (ft : FileType) (libcLookup usersLookup : Option String),
        get_group_name ft libcLookup usersLookup = libcLookup.getD "")
    ∧ get_group_name FileType.File none (some "users_group") = "" := by
  refine ⟨fun ft => by cases ft <;> rfl, fun ft l u => ?_, rfl⟩
  cases ft <;> cases l <;> rfl

/-- C3 (amended): the size formatter starts at `B` and advances one unit
per strict excess over 1024 (exact 1024 keeps the lower unit; nothing
beyond `P`); 1024 → `"1024.00B"`, 1025 → `"1.00K"`, 0 → `"0.00B"`, but
1048576 → `"1024.00K"` (not `"1.00M"`: 1048576/1024 = 1024 is not
strictly greater than 1024, so the second division never happens). -/
theorem C3_size_formatter :
    (∀ size : Nat, human_readable_pair size =
      if size ≤ 1024 then ((size : ℚ), "B")
      else if size ≤ 1024 ^ 2 then ((size : ℚ) / 1024, "K")
      else if size ≤ 1024 ^ 3 then ((size : ℚ) / 1024 / 1024, "M")
      else if size ≤ 1024 ^ 4 then ((size : ℚ) / 1024 / 1024 / 1024, "G")
      else if size ≤ 1024 ^ 5 then ((size : ℚ) / 1024 / 1024 / 1024 / 1024, "T")
      else ((size : ℚ) / 1024 / 1024 / 1024 / 1024 / 1024, "P"))
    ∧ human_readable_size 1024 = "1024.00B"
    ∧ human_readable_size 1025 = "1.00K"
    ∧ human_readable_size 1048576 = "1024.00K"
    ∧ human_readable_size 0 = "0.00B" :=
  ⟨human_readable_pair_eq, hrs_1024, hrs_1025, hrs_1048576, hrs_0⟩

/-- C3 counterexample: the claim's example `1048576 → "1.00M"` is false;
the code yields `"1024.00K"`. -/
theorem C3_counterexample : human_readable_size 1048576 ≠ "1.00M" := by
  rw [hrs_1048576]
  decide

/-- C5: for every 3-bit value 0–7 the decoder returns the 3-character
`rwx` triad given by the bitwise truth table (bit 4 → `r`, bit 2 → `w`,
bit 1 → `x`, left to right, `-` when unset); it is a total function. -/
theorem C5_permission_decoder :
    (∀ n : Fin 8,
      turn_permission_num_to_str n.val =
        (if n.val.testBit 2 then "r" else "-")
          ++ (if n.val.testBit 1 then "w" else "-")
          ++ (if n.val.testBit 0 then "x" else "-")
      ∧ (turn_permission_num_to_str n.val).length = 3)
    ∧ turn_permission_num_to_str 6 = "rw-"
    ∧ turn_permission_num_to_str 5 = "r-x"
    ∧ turn_permission_num_to_str 0 = "---" := by
  decide

/-- C10: the kind-to-display-category mapping is many-to-one: File, Dir
and Link each get their own category, the four special kinds share one;
the classifier still assigns a char device and a FIFO distinct kinds,
yet the renderer gives their records the same category. -/
theorem C10_display_categories :
    (∀ mode : Nat, (analysis_mode mode charDevDesc).2 = FileType.CharDevice)
    ∧ (∀ mode : Nat, (analysis_mode mode fifoDesc).2 = FileType.Fifo)
    ∧ FileType.CharDevice ≠ FileType.Fifo
    ∧ (∀ f g : FileInfo, f.file_type = FileType.CharDevice →
        g.file_type = FileType.Fifo → color_file_names f = color_file_names g)
    ∧ (∀ f g : FileInfo, color_file_names f = color_file_names g ↔
        (f.file_type = g.file_type
          ∨ (specialKind f.file_type ∧ specialKind g.file_type))) := by
  refine ⟨fun mode => rfl, fun mode => rfl, by decide, ?_, ?_⟩
  · intro f g hf hg
    simp [color_file_names, hf, hg]
  · intro f g
    rcases f with ⟨ft, fp, fl, fo, fg, fs, fm, fn, fh⟩
    rcases g with ⟨gt, gp, gl, go, gg, gs, gm, gn, gh⟩
    cases ft <;> cases gt <;> simp [color_file_names, specialKind]

/-- C10 witness: a char-device record and a FIFO record receive the same
display category although their kinds differ. -/
theorem C10_witness :
    color_file_names (sampleRec FileType.CharDevice "cdev")
      = color_file_names (sampleRec FileType.Fifo "pipe") :=
  C10_display_categories.2.2.2.1 (sampleRec FileType.CharDevice "cdev")
    (sampleRec FileType.Fifo "pipe") rfl rfl

/-- C4: the sorter orders records by the selected key (name by default,
size with `-s`, modification time with `-t`), is stable (the subsequence
of records tying with any fixed record is unchanged), and the `-r` flag
reverses the already-sorted sequence wholesale — so ties appear in
reversed original order — as witnessed on the spec's
`["b", "a", "c"]` example. -/
theorem C4_sorter :
    (∀ bs bt : Bool, ∀ files : List FileInfo,
      List.Sorted (fileLe bs bt) (sortFiles bs bt false files))
    ∧ (∀ bs bt : Bool, ∀ x : FileInfo, ∀ files : List FileInfo,
      (sortFiles bs bt false files).filter
          (fun y => decide (eqvUnder (fileLe bs bt) x y))
        = files.filter (fun y => decide (eqvUnder (fileLe bs bt) x y)))
    ∧ (∀ bs bt : Bool, ∀ files : List FileInfo,
      sortFiles bs bt true files = (sortFiles bs bt false files).reverse)
    ∧ (∀ bs bt : Bool, ∀ x : FileInfo, ∀ files : List FileInfo,
      (sortFiles bs bt true files).filter
          (fun y => decide (eqvUnder (fileLe bs bt) x y))
        = (files.filter (fun y => decide (eqvUnder (fileLe bs bt) x y))).reverse)
    ∧ (sortFiles false false false
        [sampleRec FileType.File "b", sampleRec FileType.File "a",
          sampleRec FileType.File "c"]).map FileInfo.name = ["a", "b", "c"]
    ∧ (sortFiles false false true
        [sampleRec FileType.File "b", sampleRec FileType.File "a",
          sampleRec FileType.File "c"]).map FileInfo.name = ["c", "b", "a"] := by
  have hsorted : ∀ bs bt : Bool, ∀ files : List FileInfo,
      List.Sorted (fileLe bs bt) (sortFiles bs bt false files) := by
    intro bs bt files
    simpa [sortFiles] using List.sorted_insertionSort (fileLe bs bt) files
  have hstable : ∀ bs bt : Bool, ∀ x : FileInfo, ∀ files : List FileInfo,
      (sortFiles bs bt false files).filter
          (fun y => decide (eqvUnder (fileLe bs bt) x y))
        = files.filter (fun y => decide (eqvUnder (fileLe bs bt) x y)) := by
    intro bs bt x files
    simpa [sortFiles] using filter_insertionSort_eqv (fileLe bs bt) x files
  have hrev : ∀ bs bt : Bool, ∀ files : List FileInfo,
      sortFiles bs bt true files = (sortFiles bs bt false files).reverse := by
    intro bs bt files
    simp [sortFiles]
  have hab : ("a" : String) ≤ "b" := by
    rw [String.le_iff_toList_le]
    decide
  have hba : ¬("b" : String) ≤ "a" := by
    rw [String.le_iff_toList_le]
    decide
  have hbc : ("b" : String) ≤ "c" := by
    rw [String.le_iff_toList_le]
    decide
  have hfwd : (sortFiles false false false
      [sampleRec FileType.File "b", sampleRec FileType.File "a",
        sampleRec FileType.File "c"]).map FileInfo.name = ["a", "b", "c"] := by
    simp [sortFiles, List.insertionSort, List.orderedInsert, fileLe, sampleRec,
      hab, hba, hbc]
  refine ⟨hsorted, hstable, hrev, ?_, hfwd, ?_⟩
  · intro bs bt x files
    rw [hrev, List.filter_reverse, hstable]
  · rw [hrev, List.map_reverse, hfwd]
    rfl

/-- C1 (amended): the `!all && is_hidden` filter is applied by the
name-only and detailed renderers only — a hidden record is skipped there
unless show-hidden is on, and a record whose name does not start with
`.` (so `get_file_info` sets `is_hidden = false`) is never skipped — but
the tree walker applies no hidden filter: it emits an existing node's
line whatever its `is_hidden` flag. -/
theorem C1_hidden_filter :
    (∀ (files : List FileInfo) (f : FileInfo), f.is_hidden = true →
      show_names_cells false (f :: files) = show_names_cells false files)
    ∧ (∀ (hr : Bool) (files : List FileInfo) (f : FileInfo), f.is_hidden = true →
      show_infos_lines false hr (f :: files) = show_infos_lines false hr files)
    ∧ (∀ (all : Bool) (files : List FileInfo) (f : FileInfo),
      all = true ∨ f.is_hidden = false →
      show_names_cells all (f :: files)
        = padRight20 f.name :: show_names_cells all files)
    ∧ (∀ (all hr : Bool) (files : List FileInfo) (f : FileInfo),
      all = true ∨ f.is_hidden = false →
      show_infos_lines all hr (f :: files)
        = info_line hr f :: show_infos_lines all hr files)
    ∧ (∀ (md d : Nat) (info : FileInfo) (rd : ReadDirResult), d ≤ md →
      ∃ rest, show_as_tree_recursively md (FSNode.node info rd) d
        = (d * 5, LineContent.entry (color_file_names info) info.name) :: rest)
    ∧ (∀ (meta : OsMetadata) (file_name : String) (lg ug uo : Option String),
      startsWithDot file_name = false →
      (get_file_info meta file_name lg ug uo).is_hidden = false) := by
  refine ⟨?_, ?_, ?_, ?_, ?_, ?_⟩
  · intro files f h
    simp [show_names_cells, h]
  · intro hr files f h
    simp [show_infos_lines, h]
  · intro all files f h
    rcases h with h | h <;> simp [show_names_cells, h]
  · intro all hr files f h
    rcases h with h | h <;> simp [show_infos_lines, h]
  · intro md d info rd hd
    refine ⟨if info.file_type = FileType.Dir then childLines md rd d else [], ?_⟩
    simp only [show_as_tree_recursively]
    rw [if_neg (Nat.not_lt.mpr hd)]
  · intro meta file_name lg ug uo h
    simp [get_file_info, h]

/-- C1 witness: a hidden `.env` record is skipped by the two flat modes
when show-hidden is off, a non-dot `env` record is rendered, the tree
walker emits a node's line, and a non-dot name yields `is_hidden =
false` from `get_file_info`. -/
theorem C1_hidden_filter_witness :
    show_names_cells false [sampleRec FileType.File ".env"] = show_names_cells false []
    ∧ show_infos_lines false false [sampleRec FileType.File ".env"]
        = show_infos_lines false false []
    ∧ show_names_cells false [sampleRec FileType.File "env"]
        = padRight20 (sampleRec FileType.File "env").name :: show_names_cells false []
    ∧ show_infos_lines false true [sampleRec FileType.File "env"]
        = info_line true (sampleRec FileType.File "env") :: show_infos_lines false true []
    ∧ (∃ rest, show_as_tree_recursively 10
          (FSNode.node (sampleRec FileType.File ".env") (ReadDirResult.ok FSForest.nil)) 0
        = (0 * 5, LineContent.entry
            (color_file_names (sampleRec FileType.File ".env"))
            (sampleRec FileType.File ".env").name) :: rest)
    ∧ (get_file_info ⟨420, ⟨false, true, false, false, false, false, false⟩, 1, 100, "t"⟩
        "env" none none none).is_hidden = false :=
  ⟨C1_hidden_filter.1 [] (sampleRec FileType.File ".env") rfl,
    C1_hidden_filter.2.1 false [] (sampleRec FileType.File ".env") rfl,
    C1_hidden_filter.2.2.1 false [] (sampleRec FileType.File "env") (Or.inr rfl),
    C1_hidden_filter.2.2.2.1 false true [] (sampleRec FileType.File "env") (Or.inr rfl),
    C1_hidden_filter.2.2.2.2.1 10 0 (sampleRec FileType.File ".env")
      (ReadDirResult.ok FSForest.nil) (by decide),
    C1_hidden_filter.2.2.2.2.2
      ⟨420, ⟨false, true, false, false, false, false, false⟩, 1, 100, "t"⟩
      "env" none none none rfl⟩

/-- C1 counterexample: the tree mode (reachable only with show-hidden
off: status 8 is the bare `-T` flag) emits a line for a record whose
`is_hidden` flag is true, so the claim's "skipped in any of the three
modes" fails for the tree mode. -/
theorem C1_counterexample :
    (sampleRec FileType.File ".env").is_hidden = true
    ∧ show_as_tree_recursively 10
        (FSNode.node (sampleRec FileType.File ".env") (ReadDirResult.ok FSForest.nil)) 0
      = [(0, LineContent.entry Color.white ".env")] := by
  constructor <;> decide

/-- C6 (amended): past the depth bound the walker is silent for every
existing node — but the missing-path check precedes the depth check, so
a nonexistent path still emits its placeholder at any depth; with
`max_depth = 1` every line of an entry or denied placeholder sits at
indent ≤ 5 (no existing grandchild is emitted) while direct children
are emitted. -/
theorem C6_depth_bound :
    (∀ (md : Nat) (info : FileInfo) (rd : ReadDirResult) (d : Nat), md < d →
      show_as_tree_recursively md (FSNode.node info rd) d = [])
    ∧ (∀ md d : Nat, show_as_tree_recursively md FSNode.missing d
        = [(d * 5, LineContent.noSuchFile)])
    ∧ (∀ n : FSNode, ∀ p ∈ show_as_tree_recursively 1 n 0,
        p.2 = LineContent.noSuchFile ∨ p.1 ≤ 5)
    ∧ (∀ (info ci : FileInfo) (cs : FSForest) (rdi : ReadDirResult),
        info.file_type = FileType.Dir →
        FSNode.node ci rdi ∈ cs.toList →
        (1 * 5, LineContent.entry (color_file_names ci) ci.name)
          ∈ show_as_tree_recursively 1 (FSNode.node info (ReadDirResult.ok cs)) 0) := by
  refine ⟨?_, fun md d => rfl, ?_, ?_⟩
  · intro md info rd d hd
    simp [show_as_tree_recursively, hd]
  · intro n p hp
    simpa using walk_indent_bound 1 n 0 p hp
  · intro info ci cs rdi hdir hmem
    have hq : (1 * 5, LineContent.entry (color_file_names ci) ci.name)
        ∈ show_as_tree_recursively 1 (FSNode.node ci rdi) 1 := by
      simp only [show_as_tree_recursively]
      rw [if_neg (by omega : ¬1 < 1)]
      exact List.mem_cons_self _ _
    have hforest := mem_showForest 1 1 cs (FSNode.node ci rdi) hmem _ hq
    simp only [show_as_tree_recursively, childLines]
    rw [if_neg (by omega : ¬1 < 0), if_pos hdir]
    exact List.mem_cons_of_mem _ hforest

/-- C6 witness: an existing node two levels deep is silenced with
`max_depth = 1`, the missing placeholder formula, a root line satisfying
the indent bound, and a direct child's line being emitted. -/
theorem C6_depth_bound_witness :
    show_as_tree_recursively 1
      (FSNode.node (sampleRec FileType.File "deep") ReadDirResult.denied) 2 = []
    ∧ show_as_tree_recursively 3 FSNode.missing 2 = [(2 * 5, LineContent.noSuchFile)]
    ∧ (((0, LineContent.entry Color.cyan "top") : Nat × LineContent).2
          = LineContent.noSuchFile
        ∨ ((0, LineContent.entry Color.cyan "top") : Nat × LineContent).1 ≤ 5)
    ∧ (1 * 5, LineContent.entry (color_file_names (sampleRec FileType.Dir "sub"))
          (sampleRec FileType.Dir "sub").name)
        ∈ show_as_tree_recursively 1
            (FSNode.node (sampleRec FileType.Dir "top")
              (ReadDirResult.ok
                (FSForest.cons
                  (FSNode.node (sampleRec FileType.Dir "sub") ReadDirResult.denied)
                  FSForest.nil))) 0 :=
  ⟨C6_depth_bound.1 1 (sampleRec FileType.File "deep") ReadDirResult.denied 2
      (by decide),
    C6_depth_bound.2.1 3 2,
    Or.inr
      (C6_depth_bound.2.2.1 c6Root (0, LineContent.entry Color.cyan "top")
        (by decide) |>.resolve_left (by decide)),
    C6_depth_bound.2.2.2 (sampleRec FileType.Dir "top") (sampleRec FileType.Dir "sub")
      (FSForest.cons (FSNode.node (sampleRec FileType.Dir "sub") ReadDirResult.denied)
        FSForest.nil)
      ReadDirResult.denied rfl (List.mem_cons_self _ _)⟩

/-- C6 counterexample: with `max_depth = 1` the walker still emits a
line for a grandchild — the missing-path placeholder is printed before
the depth bound is consulted, so a dangling entry two levels down
produces output at depth 2. -/
theorem C6_counterexample :
    show_as_tree_recursively 1 c6Root 0
      = [(0, LineContent.entry Color.cyan "top"),
         (5, LineContent.entry Color.cyan "sub"),
         (10, LineContent.noSuchFile)]
    ∧ (10, LineContent.noSuchFile) ∈ show_as_tree_recursively 1 c6Root 0 := by
  constructor <;> decide

/-- C7: enumeration failure is fatal for the flat listing of a
directory target (`panic!`, modelled `Except.error`, so no listing is
produced) but non-fatal in the tree walk: the denied directory's line
and a placeholder are emitted and the walk continues with the remaining
siblings. -/
theorem C7_enumeration_failure_asymmetry :
    (∀ (selfInfo : FileInfo) (bs bt rev : Bool),
      get_files_and_dirs true selfInfo none bs bt rev
        = Except.error ListError.permissionDenied)
    ∧ (∀ (md d : Nat) (ci : FileInfo) (cs : FSForest), d ≤ md →
        ci.file_type = FileType.Dir →
        showForest md (FSForest.cons (FSNode.node ci ReadDirResult.denied) cs) d
          = (d * 5, LineContent.entry (color_file_names ci) ci.name)
            :: (d * 5, LineContent.permissionDenied) :: showForest md cs d) := by
  constructor
  · intro selfInfo bs bt rev
    rfl
  · intro md d ci cs hd hdir
    simp only [showForest, show_as_tree_recursively, childLines]
    rw [if_neg (Nat.not_lt.mpr hd), if_pos hdir]
    rfl

/-- C7 witness: the fatal flat-listing error at a concrete directory,
and a tree walk where an unreadable directory is followed by a sibling
that is still rendered. -/
theorem C7_witness :
    get_files_and_dirs true (sampleRec FileType.Dir "top") none false false false
      = Except.error ListError.permissionDenied
    ∧ showForest 10
        (FSForest.cons (FSNode.node (sampleRec FileType.Dir "locked") ReadDirResult.denied)
          (FSForest.cons (FSNode.node (sampleRec FileType.File "after") ReadDirResult.denied)
            FSForest.nil)) 0
      = (0 * 5, LineContent.entry (color_file_names (sampleRec FileType.Dir "locked"))
            (sampleRec FileType.Dir "locked").name)
        :: (0 * 5, LineContent.permissionDenied)
        :: showForest 10
            (FSForest.cons (FSNode.node (sampleRec FileType.File "after") ReadDirResult.denied)
              FSForest.nil) 0 :=
  ⟨C7_enumeration_failure_asymmetry.1 (sampleRec FileType.Dir "top") false false false,
    C7_enumeration_failure_asymmetry.2 10 0 (sampleRec FileType.Dir "locked")
      (FSForest.cons (FSNode.node (sampleRec FileType.File "after") ReadDirResult.denied)
        FSForest.nil)
      (by decide) rfl⟩

/-- C8 (amended): on enumeration failure the placeholder is emitted at
`depth * 5` — the unreadable directory's own indent, not one level
deeper — and descent of that branch stops (those two lines are all the
output for the branch). -/
theorem C8_denied_placeholder_indent :
    ∀ (md d : Nat) (info : FileInfo), d ≤ md → info.file_type = FileType.Dir →
      show_as_tree_recursively md (FSNode.node info ReadDirResult.denied) d
        = [(d * 5, LineContent.entry (color_file_names info) info.name),
           (d * 5, LineContent.permissionDenied)] := by
  intro md d info hd hdir
  simp only [show_as_tree_recursively, childLines]
  rw [if_neg (Nat.not_lt.mpr hd), if_pos hdir]

/-- C8 witness: a denied directory at depth 1 emits its line and the
placeholder, both at indent 5. -/
theorem C8_denied_placeholder_indent_witness :
    show_as_tree_recursively 10
      (FSNode.node (sampleRec FileType.Dir "locked") ReadDirResult.denied) 1
      = [(1 * 5, LineContent.entry (color_file_names (sampleRec FileType.Dir "locked"))
            (sampleRec FileType.Dir "locked").name),
         (1 * 5, LineContent.permissionDenied)] :=
  C8_denied_placeholder_indent 10 1 (sampleRec FileType.Dir "locked") (by decide) rfl

/-- C8 counterexample: for an unreadable directory rendered at depth 0
the placeholder appears at indent 0 — the directory's own indent — and
no line at the child indent 5 exists, contradicting the claimed
"one level (5 spaces) deeper". -/
theorem C8_counterexample :
    show_as_tree_recursively 10
      (FSNode.node (sampleRec FileType.Dir "locked") ReadDirResult.denied) 0
      = [(0, LineContent.entry Color.cyan "locked"), (0, LineContent.permissionDenied)]
    ∧ (5, LineContent.permissionDenied) ∉ show_as_tree_recursively 10
        (FSNode.node (sampleRec FileType.Dir "locked") ReadDirResult.denied) 0 := by
  constructor <;> decide

/-- C9 (amended): the name-only renderer emits all visible entries on a
single row — one left-justified minimum-20-character cell per visible
entry — with exactly one newline, at the end of the output. -/
theorem C9_name_only_single_row :
    (∀ (all : Bool) (files : List FileInfo),
      show_names all files = String.join (show_names_cells all files) ++ "\n")
    ∧ (∀ s : String, s.length ≤ 20 → (padRight20 s).length = 20)
    ∧ (∀ (all : Bool) (files : List FileInfo),
      (∀ f ∈ files, f.name.data.count '\n' = 0) →
        newlineCount (show_names all files) = 1) := by
  refine ⟨fun all files => rfl, ?_, newlineCount_show_names⟩
  intro s hs
  simp only [padRight20, String.length_append]
  have hmk : (String.mk (List.replicate (20 - s.length) ' ')).length
      = 20 - s.length := by
    show (List.replicate (20 - s.length) ' ').length = 20 - s.length
    exact List.length_replicate _ _
  omega

/-- C9 witness: a two-character name padded to a 20-character cell, and
a two-entry listing whose whole output holds exactly one newline. -/
theorem C9_name_only_single_row_witness :
    (padRight20 "ab").length = 20
    ∧ newlineCount (show_names false
        [sampleRec FileType.File "env", sampleRec FileType.Dir "sub"]) = 1 :=
  ⟨C9_name_only_single_row.2.1 "ab" (by decide),
    C9_name_only_single_row.2.2 false
      [sampleRec FileType.File "env", sampleRec FileType.Dir "sub"] (by decide)⟩

/-- C9 counterexample: two visible entries produce two cells but a
single output line (one newline in the whole output), contradicting
"one row (line) per visible entry". -/
theorem C9_counterexample :
    (show_names_cells false
        [sampleRec FileType.File "env", sampleRec FileType.Dir "sub"]).length = 2
    ∧ newlineCount (show_names false
        [sampleRec FileType.File "env", sampleRec FileType.Dir "sub"]) = 1 := by
  constructor <;> decide
